import Mathlib

/-!
Verification of the Reco-Buddy reconciliation engine
(`src/deepseek_python_20250808_621b0f.py`, class `RecoBuddy`).

Stock names are embedded as `List Char` (a Python string is a sequence of
characters); dates as `Option Int` (days; `none` models `NaT`); numeric cells
as `Option Int` (`none` models `NaN`).  Pandas equality semantics are kept:
a comparison against a missing value is false.

Note on the source text: line 159 of the source is missing a closing
parenthesis (`range(1, len(self.ais_data) + 1`); line 160 shows the evident
intended form, which assigns the sequence ids `1, 2, ...` in input row order.
The embedding follows that intended form.
-/

namespace RecoBuddy

/-- Tokens of a stock name: maximal runs of non-space characters, mirroring
whitespace tokenisation.  The accumulator holds the current (reversed) run. -/
def splitTok : List Char → List Char → List (List Char)
  | [], acc => if acc = [] then [] else [acc.reverse]
  | c :: cs, acc =>
    if c = ' ' then
      if acc = [] then splitTok cs [] else acc.reverse :: splitTok cs []
    else splitTok cs (c :: acc)

/-- Token set of a name (duplicate-insensitive, order-insensitive). -/
def tokenSet (s : List Char) : Finset (List Char) := (splitTok s []).toFinset

/-- Modelled from the spec: the final tier of `RecoBuddy.fuzzy_match_stocks`
(source line 190) calls the external library function
`fuzz.token_set_ratio(name1, name2)` (fuzzywuzzy), whose code is not part of
this repository.  The spec (§9, design notes) states that any approximate
token-overlap similarity in [0,100] that is symmetric is an acceptable model
for it.  We use the Sorensen-Dice overlap of the two token sets, scaled to
[0,100] (natural division; both-empty gives 0, as the library does). -/
def tokenSetScore (a b : List Char) : Nat :=
  200 * ((tokenSet a) ∩ (tokenSet b)).card / ((tokenSet a).card + (tokenSet b).card)

/-- Shared-substring tier of `RecoBuddy.fuzzy_match_stocks` (source lines
168-173): both names have length at least 5 and some 5-character window
`name1[i:i+5]` occurs inside `name2`. -/
def hasCommonSub5 (a b : List Char) : Bool :=
  decide (5 ≤ a.length) && decide (5 ≤ b.length) &&
    (List.range (a.length - 4)).any (fun i => decide ((a.drop i).take 5 <:+: b))

/-- Static abbreviation table of `fuzzy_match_stocks` (source lines 176-181). -/
def abbreviations : List (List Char × List (List Char)) :=
  [ ( "RELIANCE".toList,
      [ "RIL".toList, "RELIANCE IND".toList, "RELIANCE INDUSTRIES".toList]),
    ( "MAHARASHTRA BANK".toList,
      [ "MAHABANK".toList, "BANK OF MAHARASHTRA".toList]),
    ( "HDFC BANK".toList, [ "HDFCBANK".toList]),
    ( "LIC".toList, [ "LIFE INSURANCE CORP".toList])]

/-- Abbreviation tier of `fuzzy_match_stocks` (source lines 183-187): some
table entry has one name as its canonical key and the other in its alias
list, in either orientation. -/
def abbrevMatch (a b : List Char) : Bool :=
  abbreviations.any
    (fun kv => (decide (a = kv.1) && decide (b ∈ kv.2)) ||
               (decide (b = kv.1) && decide (a ∈ kv.2)))

/-- Embedding of `RecoBuddy.fuzzy_match_stocks` (source lines 162-190):
exact equality, then shared 5-substring, then abbreviation table, then the
token-overlap fallback; first applicable tier wins. -/
def fuzzy_match_stocks (name1 name2 : List Char) : Nat :=
  if name1 = name2 then 100
  else if hasCommonSub5 name1 name2 then 90
  else if abbrevMatch name1 name2 then 95
  else tokenSetScore name1 name2

/-- Declarative form of the shared-substring condition, as the spec words it:
`name2` has length at least 5 and some full 5-character contiguous substring
of `name1` occurs anywhere in `name2`. -/
def Sub5 (a b : List Char) : Prop :=
  5 ≤ b.length ∧ ∃ i, i + 5 ≤ a.length ∧ (a.drop i).take 5 <:+: b

/-- Declarative form of the abbreviation condition: some table entry accepts
the two names in one orientation or the other. -/
def AbbrevPair (a b : List Char) : Prop :=
  ∃ kv ∈ abbreviations, (a = kv.1 ∧ b ∈ kv.2) ∨ (b = kv.1 ∧ a ∈ kv.2)

/-! ## The record model and the four-level cascading matcher

A `Rec` is one normalized transaction row after `load_data` (source lines
127-160): the cleaned stock name (`'Stock Name Clean'`, upper-cased and
trimmed at load), the sequence id (`'ID'`, unique 1-based, in input order),
and the tolerantly parsed numeric/date cells, where `none` models a
missing value (`NaN`/`NaT`).  The same structure serves both the AIS side
and the CG side; the purchase columns never influence control flow in
`match_records` (they are read with defaulting `.get` accessors), so they
are not carried on the record — their structural presence is modelled
separately in the column layer below. -/

structure Rec where
  id : Nat
  nameClean : List Char
  qty : Option Int
  salesValue : Option Int
  saleDate : Option Int
deriving DecidableEq

/-- One emitted match row, reduced to the fields the matching logic itself
determines: the running match id, the level (1-4) and the sets of consumed
record ids on each side (singletons for levels 1-3, whole groups for level
4).  The remaining output cells are projections of the consumed rows. -/
structure MatchRec where
  matchId : Nat
  level : Nat
  aisIds : List Nat
  cgIds : List Nat
deriving DecidableEq

/-- Pandas equality of two possibly-missing cells: a comparison involving
`NaN` is false, otherwise numeric equality. -/
def qeq (x y : Option Int) : Bool :=
  match x, y with
  | some u, some v => decide (u = v)
  | _, _ => false

/-- Pandas `abs(d1 - d2) <= Timedelta(days=1)`: false when either side is
missing (`NaT`), otherwise the dates are at most one day apart. -/
def dateClose (x y : Option Int) : Bool :=
  match x, y with
  | some u, some v => decide ((u - v).natAbs ≤ 1)
  | _, _ => false

/-- Level-1 mask (source lines 217-221): identical cleaned stock name, equal
quantity, sale dates within one day. -/
def level1Pred (a c : Rec) : Bool :=
  decide (a.nameClean = c.nameClean) && qeq a.qty c.qty &&
    dateClose c.saleDate a.saleDate

/-- Level-2 mask (source lines 254-257): identical cleaned stock name and
equal quantity; the dates are ignored. -/
def level2Pred (a c : Rec) : Bool :=
  decide (a.nameClean = c.nameClean) && qeq a.qty c.qty

/-- Level-3 inner fold (source lines 289-300): scan the CG pool in order,
keeping the candidate with the highest score, where a candidate must score
strictly above 80 and have exactly equal quantity; a new candidate replaces
the current best only on a strictly higher score, so ties keep the earlier
record.  `best` and `bs` are `best_match` and `best_score`. -/
def pickBest (a : Rec) : List Rec → Option Rec → Nat → Option Rec
  | [], best, _ => best
  | c :: rest, best, bs =>
    let s := fuzzy_match_stocks a.nameClean c.nameClean
    if 80 < s && qeq a.qty c.qty && bs < s then pickBest a rest (some c) s
    else pickBest a rest best bs

/-- Generic shape of levels 1-3 (source lines 212-323): iterate over the
snapshot of the AIS pool taken when the level starts, select at most one CG
record from the current CG pool for each AIS row; on a hit emit a match and
filter both pools by the consumed ids (`unmatched_ais = unmatched_ais[ID !=
...]`, likewise for CG).  The selector `sel` receives the current CG pool. -/
def scanLevel (sel : Rec → List Rec → Option Rec) (lvl : Nat) :
    List Rec → List Rec → List Rec → List MatchRec → Nat →
    List Rec × List Rec × List MatchRec × Nat
  | [], ais, cg, ms, mid => (ais, cg, ms, mid)
  | a :: rest, ais, cg, ms, mid =>
    match sel a cg with
    | none => scanLevel sel lvl rest ais cg ms mid
    | some c =>
      scanLevel sel lvl rest
        (ais.filter (fun r => decide (r.id ≠ a.id)))
        (cg.filter (fun r => decide (r.id ≠ c.id)))
        (ms ++ [⟨mid, lvl, [a.id], [c.id]⟩]) (mid + 1)

/-- Level-1 selector: skip AIS rows with a missing sale date (source lines
214-215), otherwise take the first CG record of the pool satisfying the
level-1 mask (`matches_found.iloc[0]`, source line 226). -/
def sel1 (a : Rec) (cg : List Rec) : Option Rec :=
  match a.saleDate with
  | none => none
  | some _ => cg.find? (fun c => level1Pred a c)

/-- Level-2 selector: first CG record of the pool satisfying the level-2
mask (source line 262). -/
def sel2 (a : Rec) (cg : List Rec) : Option Rec :=
  cg.find? (fun c => level2Pred a c)

/-- Level-3 selector: the best-scoring qualifying CG record, earliest on a
tie (source lines 289-302). -/
def sel3 (a : Rec) (cg : List Rec) : Option Rec :=
  pickBest a cg none 0

def runLevel1 (snap ais cg : List Rec) (ms : List MatchRec) (mid : Nat) :=
  scanLevel sel1 1 snap ais cg ms mid

def runLevel2 (snap ais cg : List Rec) (ms : List MatchRec) (mid : Nat) :=
  scanLevel sel2 2 snap ais cg ms mid

def runLevel3 (snap ais cg : List Rec) (ms : List MatchRec) (mid : Nat) :=
  scanLevel sel3 3 snap ais cg ms mid

/-- Lexicographic comparison of names by character code, the order pandas
uses for string group keys (`groupby` sorts its keys). -/
def keyLe : List Char → List Char → Bool
  | [], _ => true
  | _ :: _, [] => false
  | a :: as, b :: bs => if a = b then keyLe as bs else decide (a < b)

/-- Insertion of a key into a sorted key list (stable, structural). -/
def insertKey (k : List Char) : List (List Char) → List (List Char)
  | [] => [k]
  | x :: xs => if keyLe k x then k :: x :: xs else x :: insertKey k xs

/-- Insertion sort over keys.  The keys it is applied to are distinct (they
come from `dedup`), so any correct sort produces the pandas key order. -/
def sortKeys : List (List Char) → List (List Char)
  | [] => []
  | x :: xs => insertKey x (sortKeys xs)

/-- Group keys of a pool, as `groupby('Stock Name Clean')` produces them:
the distinct cleaned names, in sorted order. -/
def sortedKeys (pool : List Rec) : List (List Char) :=
  sortKeys ((pool.map (fun r => r.nameClean)).dedup)

/-- Members of one name group, in pool order. -/
def groupOf (pool : List Rec) (k : List Char) : List Rec :=
  pool.filter (fun r => decide (r.nameClean = k))

/-- All name groups of a pool, keyed and in sorted key order, mirroring a
pandas `groupby` object.  Note `match_records` computes both `groupby`
objects once, before the level-4 loop (source lines 327-328), so they are
NOT refreshed as the pools shrink inside the loop. -/
def groupsOf (pool : List Rec) : List (List Char × List Rec) :=
  (sortedKeys pool).map (fun k => (k, groupOf pool k))

/-- Level-4 key scan (source lines 332-339): over the fixed CG group keys,
keep the key scoring strictly above 85 against the AIS group key, preferring
strictly higher scores (first key wins ties). -/
def pickBestKey (k : List Char) : List (List Char) → Option (List Char) → Nat →
    Option (List Char)
  | [], best, _ => best
  | ck :: rest, best, bs =>
    let s := fuzzy_match_stocks k ck
    if 85 < s && bs < s then pickBestKey k rest (some ck) s
    else pickBestKey k rest best bs

/-- Pandas `Series.sum()` of a quantity column: missing entries are skipped. -/
def sumQty (g : List Rec) : Int := (g.filterMap (fun r => r.qty)).sum

/-- Lookup of `cg_groups.get_group(cg_match_name)` (source line 342) in the
group table as fixed before the level-4 loop.  The key always comes from the
table's own key list, so the default is never reached. -/
def cgGroupLookup (cgs : List (List Char × List Rec)) (ck : List Char) : List Rec :=
  ((cgs.find? (fun p => decide (p.1 = ck))).map (fun p => p.2)).getD []

/-- Level 4 (source lines 325-371): for each AIS name group (the group list
is fixed at entry), find the best CG group key above 85; `if cg_match_name:`
is Python truthiness, so an empty-string key is skipped like `None`.  The CG
group is looked up in the STALE group table (`cg_groups.get_group`), not in
the current CG pool.  When the summed quantities agree, one aggregate match
consuming both whole groups is emitted and both pools are filtered by the
groups' id sets (`~ID.isin(...)`, source lines 369-370). -/
def runLevel4 :
    List (List Char × List Rec) → List (List Char × List Rec) →
    List Rec → List Rec → List MatchRec → Nat →
    List Rec × List Rec × List MatchRec × Nat
  | [], _, ua, uc, ms, mid => (ua, uc, ms, mid)
  | (k, g) :: rest, cgs, ua, uc, ms, mid =>
    match pickBestKey k (cgs.map (fun p => p.1)) none 0 with
    | none => runLevel4 rest cgs ua uc ms mid
    | some ck =>
      if ck = [] then runLevel4 rest cgs ua uc ms mid
      else
        if sumQty g = sumQty (cgGroupLookup cgs ck) then
          runLevel4 rest cgs
            (ua.filter (fun r => decide (r.id ∉ g.map (fun x => x.id))))
            (uc.filter (fun r => decide (r.id ∉ (cgGroupLookup cgs ck).map (fun x => x.id))))
            (ms ++ [⟨mid, 4, g.map (fun x => x.id),
              (cgGroupLookup cgs ck).map (fun x => x.id)⟩])
            (mid + 1)
        else runLevel4 rest cgs ua uc ms mid

/-- Output of `match_records`: the match list and the two residual pools. -/
structure RecoResult where
  matchList : List MatchRec
  unmatchedAIS : List Rec
  unmatchedCG : List Rec
deriving DecidableEq

/-- State (AIS pool, CG pool, match list, next match id) after level 1 of
`match_records`: the level starts from the loaded pools, an empty match list
and `match_id = 1` (source lines 204-250). -/
def stage1 (ais cg : List Rec) : List Rec × List Rec × List MatchRec × Nat :=
  runLevel1 ais ais cg [] 1

/-- State after level 2, which iterates over the snapshot of the AIS pool
left by level 1 (source lines 252-284). -/
def stage2 (ais cg : List Rec) : List Rec × List Rec × List MatchRec × Nat :=
  runLevel2 (stage1 ais cg).1 (stage1 ais cg).1 (stage1 ais cg).2.1
    (stage1 ais cg).2.2.1 (stage1 ais cg).2.2.2

/-- State after level 3 (source lines 286-323). -/
def stage3 (ais cg : List Rec) : List Rec × List Rec × List MatchRec × Nat :=
  runLevel3 (stage2 ais cg).1 (stage2 ais cg).1 (stage2 ais cg).2.1
    (stage2 ais cg).2.2.1 (stage2 ais cg).2.2.2

/-- State after level 4, whose two `groupby` tables are both computed from
the post-level-3 pools, once, before its loop (source lines 325-371). -/
def stage4 (ais cg : List Rec) : List Rec × List Rec × List MatchRec × Nat :=
  runLevel4 (groupsOf (stage3 ais cg).1) (groupsOf (stage3 ais cg).2.1)
    (stage3 ais cg).1 (stage3 ais cg).2.1 (stage3 ais cg).2.2.1 (stage3 ais cg).2.2.2

/-- Embedding of `RecoBuddy.match_records` (source lines 192-390) for inputs
whose tables carry all columns: the four levels run in order, each over the
pools left by the previous one, with the match list and the running match id
threaded through. -/
def match_records (ais cg : List Rec) : RecoResult :=
  ⟨(stage4 ais cg).2.2.1, (stage4 ais cg).1, (stage4 ais cg).2.1⟩

/-- Score of a CG record's name against an AIS record's name at level 3. -/
@[reducible] def l3score (a c : Rec) : Nat :=
  fuzzy_match_stocks a.nameClean c.nameClean

/-- Qualification test of the level-3 scan: score strictly above 80 and
exactly equal (present) quantities (source line 298, first two conjuncts). -/
def level3Qual (a c : Rec) : Bool :=
  decide (80 < fuzzy_match_stocks a.nameClean c.nameClean) && qeq a.qty c.qty

/-- Concrete rows used by the witness theorems. -/
def w3a : Rec := ⟨1, "ALPHA".toList, some 5, some 100, some 10⟩

def w3c1 : Rec := ⟨1, "BETA".toList, some 5, some 50, some 10⟩

def w3c2 : Rec := ⟨2, "ALPHA".toList, some 5, some 70, some 11⟩

def w4a : Rec := ⟨1, "RELIANCE".toList, some 5, some 100, some 10⟩

def w4c1 : Rec := ⟨1, "RELIANCEX".toList, some 5, some 10, some 10⟩

def w4c2 : Rec := ⟨2, "RIL".toList, some 5, some 20, some 10⟩

def w4c3 : Rec := ⟨3, "RIL".toList, some 5, some 30, some 10⟩

def w5a1 : Rec := ⟨1, "TCS".toList, some 5, some 100, some 10⟩

def w5a2 : Rec := ⟨2, "TCS".toList, some 5, some 100, some 11⟩

def w5c1 : Rec := ⟨1, "TCS".toList, some 10, some 200, some 10⟩

def w6a : Rec := ⟨1, "ALPHA".toList, some 5, some 100, some 10⟩

def w6c : Rec := ⟨1, "ALPHA".toList, some 5, some 90, some 10⟩

/-- Rows of the input on which the CG-side partition invariant fails: two
distinct AIS name groups both fuzzy-match the single CG name group above 85
with equal quantity sums, so the stale CG group table hands the same two CG
records to two different aggregate matches. -/
def w1a1 : Rec := ⟨1, "ABCDEG".toList, some 5, some 100, some 10⟩

def w1a2 : Rec := ⟨2, "ABCDEH".toList, some 5, some 100, some 10⟩

def w1c1 : Rec := ⟨1, "ABCDEF".toList, some 2, some 40, some 10⟩

def w1c2 : Rec := ⟨2, "ABCDEF".toList, some 3, some 60, some 10⟩

/-! ## Column-presence layer

The pure model above assumes every input column is present.  This layer
models what the source does when a column is structurally absent from an
input table.  Pandas raises `KeyError(label)` the moment an absent column is
looked up (`df[label]` or `row[label]`), while `row.get(label, default)` and
`df.get(label, default)` return the default silently; `load_data` guards all
its conversions with `if col in columns` except the two Stock Name accesses
(source lines 133-134).  The level-4 purchase sums use
`group.get('Purchase Value (...)', 0).sum()` (source lines 361-362): when
the column is absent that evaluates `(0).sum()`, which raises
`AttributeError` because a plain int has no `sum` method. -/

/-- One input column of a side, as named in the error it raises. -/
inductive ColId
  | stockNameA
  | stockNameC
  | qtyA
  | qtyC
  | salesValueA
  | salesValueC
  | saleDateA
  | saleDateC
deriving DecidableEq

/-- Python exceptions the engine can raise on column-shaped inputs. -/
inductive PyError
  | keyError (col : ColId)
  | attributeError
deriving DecidableEq

/-- Structural presence of each engine-read column in the two input tables
(`a` = AIS side, `c` = CG side): Stock Name, Quantity, Sales Value, Sale
Date, Purchase Value.  The Purchase Date columns are read only through
defaulting `.get` accessors or replaced by the `"Multiple"` sentinel at
level 4 (source lines 363-364), so their absence is never observable. -/
structure Shape where
  aName : Bool
  cName : Bool
  aQty : Bool
  cQty : Bool
  aSV : Bool
  cSV : Bool
  aSDt : Bool
  cSDt : Bool
  aPV : Bool
  cPV : Bool
deriving DecidableEq

def Shape.full : Shape :=
  ⟨true, true, true, true, true, true, true, true, true, true⟩

/-- First missing column of an access sequence, as the error it raises. -/
def firstMissing : List (Bool × ColId) → Option PyError
  | [] => none
  | (b, c) :: rest => if b then firstMissing rest else some (.keyError c)

/-- Levels 1-3 with column checks: like `scanLevel`, except that the per-row
selector can raise, and building the match record performs the accesses of
the record-dict literal (`bchk`). -/
def scanLevelE (selE : Rec → List Rec → Except PyError (Option Rec))
    (bchk : Option PyError) (lvl : Nat) :
    List Rec → List Rec → List Rec → List MatchRec → Nat →
    Except PyError (List Rec × List Rec × List MatchRec × Nat)
  | [], ais, cg, ms, mid => .ok (ais, cg, ms, mid)
  | a :: rest, ais, cg, ms, mid =>
    match selE a cg with
    | .error e => .error e
    | .ok none => scanLevelE selE bchk lvl rest ais cg ms mid
    | .ok (some c) =>
      match bchk with
      | some e => .error e
      | none =>
        scanLevelE selE bchk lvl rest
          (ais.filter (fun r => decide (r.id ≠ a.id)))
          (cg.filter (fun r => decide (r.id ≠ c.id)))
          (ms ++ [⟨mid, lvl, [a.id], [c.id]⟩]) (mid + 1)

/-- Level-1 selector with accesses in source order: `ais_row['Sale Date
(AIS)']` first (line 214), then — for rows with a present date — the mask's
operands left to right: `unmatched_cg['Quantity (CG)']`, `ais_row['Quantity
(AIS)']`, `unmatched_cg['Sale Date (CG)']` (lines 217-221).  The mask is
evaluated even when the CG pool has no rows; only column absence raises. -/
def sel1E (sh : Shape) (a : Rec) (cg : List Rec) : Except PyError (Option Rec) :=
  if !sh.aSDt then .error (.keyError .saleDateA)
  else match a.saleDate with
  | none => .ok none
  | some _ =>
    if !sh.cQty then .error (.keyError .qtyC)
    else if !sh.aQty then .error (.keyError .qtyA)
    else if !sh.cSDt then .error (.keyError .saleDateC)
    else .ok (cg.find? (fun c => level1Pred a c))

/-- Accesses of the level-1 record dict not already performed by the mask:
the two raw stock names (lines 232-233) and the two sales values (lines
236-237); quantities and sale dates were accessed by the mask. -/
def build1Chk (sh : Shape) : Option PyError :=
  firstMissing [ (sh.aName, .stockNameA), (sh.cName, .stockNameC),
    (sh.aSV, .salesValueA), (sh.cSV, .salesValueC)]

/-- Level-2 selector: the mask reads the two quantity columns (lines
254-257); no date predicate. -/
def sel2E (sh : Shape) (a : Rec) (cg : List Rec) : Except PyError (Option Rec) :=
  if !sh.cQty then .error (.keyError .qtyC)
  else if !sh.aQty then .error (.keyError .qtyA)
  else .ok (cg.find? (fun c => level2Pred a c))

/-- Accesses of the level-2/level-3 record dicts: names (lines 267-268 resp.
306-307), sales values (271-272 resp. 310-311), then both sale-date columns
(273-274 resp. 312-313), which these levels have not touched before. -/
def build23Chk (sh : Shape) : Option PyError :=
  firstMissing [ (sh.aName, .stockNameA), (sh.cName, .stockNameC),
    (sh.aSV, .salesValueA), (sh.cSV, .salesValueC),
    (sh.aSDt, .saleDateA), (sh.cSDt, .saleDateC)]

/-- Level-3 fold with checks: the Python conjunction at line 298 is
short-circuiting, so the two quantity columns are only read for a CG row
whose score already exceeds 80. -/
def pickBestE (sh : Shape) (a : Rec) :
    List Rec → Option Rec → Nat → Except PyError (Option Rec)
  | [], best, _ => .ok best
  | c :: rest, best, bs =>
    let s := fuzzy_match_stocks a.nameClean c.nameClean
    if 80 < s then
      if !sh.cQty then .error (.keyError .qtyC)
      else if !sh.aQty then .error (.keyError .qtyA)
      else if qeq a.qty c.qty && bs < s then pickBestE sh a rest (some c) s
      else pickBestE sh a rest best bs
    else pickBestE sh a rest best bs

def sel3E (sh : Shape) (a : Rec) (cg : List Rec) : Except PyError (Option Rec) :=
  pickBestE sh a cg none 0

/-- Level 4 with column checks, in source access order: the two quantity
sums (lines 345-346) once a CG group key is selected; on sum equality the
record dict reads the name columns (353-354), the sales-value sums
(357-358), and then the purchase-value sums via `.get(col, 0).sum()` (lines
361-362), which raise `AttributeError` when the column is absent. -/
def runLevel4E (sh : Shape) :
    List (List Char × List Rec) → List (List Char × List Rec) →
    List Rec → List Rec → List MatchRec → Nat →
    Except PyError (List Rec × List Rec × List MatchRec × Nat)
  | [], _, ua, uc, ms, mid => .ok (ua, uc, ms, mid)
  | (k, g) :: rest, cgs, ua, uc, ms, mid =>
    match pickBestKey k (cgs.map (fun p => p.1)) none 0 with
    | none => runLevel4E sh rest cgs ua uc ms mid
    | some ck =>
      if ck = [] then runLevel4E sh rest cgs ua uc ms mid
      else
        if !sh.aQty then .error (.keyError .qtyA)
        else if !sh.cQty then .error (.keyError .qtyC)
        else if sumQty g = sumQty (cgGroupLookup cgs ck) then
          if !sh.aName then .error (.keyError .stockNameA)
          else if !sh.cName then .error (.keyError .stockNameC)
          else if !sh.aSV then .error (.keyError .salesValueA)
          else if !sh.cSV then .error (.keyError .salesValueC)
          else if !sh.aPV then .error .attributeError
          else if !sh.cPV then .error .attributeError
          else
            runLevel4E sh rest cgs
              (ua.filter (fun r => decide (r.id ∉ g.map (fun x => x.id))))
              (uc.filter (fun r =>
                decide (r.id ∉ (cgGroupLookup cgs ck).map (fun x => x.id))))
              (ms ++ [⟨mid, 4, g.map (fun x => x.id),
                (cgGroupLookup cgs ck).map (fun x => x.id)⟩])
              (mid + 1)
        else runLevel4E sh rest cgs ua uc ms mid

/-- Column accesses of `load_data` (source lines 127-160): only the two
Stock Name reads (lines 133-134) are unguarded; every other conversion is
wrapped in `if col in columns`. -/
def load_data_check (sh : Shape) : Except PyError Unit :=
  if !sh.aName then .error (.keyError .stockNameA)
  else if !sh.cName then .error (.keyError .stockNameC)
  else .ok ()

/-- `match_records` over column-shaped inputs. -/
def match_recordsE (sh : Shape) (ais cg : List Rec) : Except PyError RecoResult :=
  match scanLevelE (sel1E sh) (build1Chk sh) 1 ais ais cg [] 1 with
  | .error e => .error e
  | .ok r1 =>
    match scanLevelE (sel2E sh) (build23Chk sh) 2 r1.1 r1.1 r1.2.1
      r1.2.2.1 r1.2.2.2 with
    | .error e => .error e
    | .ok r2 =>
      match scanLevelE (sel3E sh) (build23Chk sh) 3 r2.1 r2.1 r2.2.1
        r2.2.2.1 r2.2.2.2 with
      | .error e => .error e
      | .ok r3 =>
        match runLevel4E sh (groupsOf r3.1) (groupsOf r3.2.1) r3.1 r3.2.1
          r3.2.2.1 r3.2.2.2 with
        | .error e => .error e
        | .ok r4 => .ok ⟨r4.2.2.1, r4.1, r4.2.1⟩

/-- Whole run over column-shaped inputs: `load_data` then `match_records`
(source lines 506-507). -/
def reconcileE (sh : Shape) (ais cg : List Rec) : Except PyError RecoResult :=
  match load_data_check sh with
  | .error e => .error e
  | .ok _ => match_recordsE sh ais cg

/-- Input row for the silent-completion counterexample: its table has no
Sales Value column, so that cell is missing on the row. -/
def w8a : Rec := ⟨1, "TCS".toList, some 5, none, some 10⟩

/-! ## Column calculus of the published unmatched tables

`match_records` publishes `unmapped_ais`/`unmapped_cg` by dropping only the
two normalization helper columns from the working copies (source lines
386-387), but those copies also received the `Match ID` and `Match Type`
columns at lines 199-202.  This layer tracks column lists only; a pandas
column assignment appends the column when absent and overwrites in place
when present. -/

/-- One column of a side's dataframe: an original input column (numbered),
or one of the four engine-added columns. -/
inductive PCol
  | orig (i : Nat)
  | stockNameClean
  | seqId
  | matchId
  | matchType
deriving DecidableEq

/-- Pandas `df[c] = ...`: appends the column when absent. -/
def addCol (cols : List PCol) (c : PCol) : List PCol :=
  if c ∈ cols then cols else cols ++ [c]

/-- Columns of one side after `load_data`: `'Stock Name Clean'` (lines
133-134) and `'ID'` (lines 159-160) are added to the input columns. -/
def loadedCols (inp : List PCol) : List PCol :=
  addCol (addCol inp .stockNameClean) .seqId

/-- Columns of the published unmatched table for one side: the working copy
gains `'Match ID'` and `'Match Type'` (lines 199-202), and the final drop
removes exactly `'Stock Name Clean'` and `'ID'` (lines 386-387). -/
def unmatchedCols (inp : List PCol) : List PCol :=
  (addCol (addCol (loadedCols inp) .matchId) .matchType).filter
    (fun c => decide (c ≠ .stockNameClean) && decide (c ≠ .seqId))


theorem tokenSetScore_le_100 (a b : List Char) : tokenSetScore a b ≤ 100 := by
  unfold tokenSetScore
  rcases Nat.eq_zero_or_pos ((tokenSet a).card + (tokenSet b).card) with h | h
  · simp [h]
  · have hinter : ((tokenSet a) ∩ (tokenSet b)).card ≤ (tokenSet a).card :=
      Finset.card_le_card (Finset.inter_subset_left)
    have hinter' : ((tokenSet a) ∩ (tokenSet b)).card ≤ (tokenSet b).card :=
      Finset.card_le_card (Finset.inter_subset_right)
    have hmul : 200 * ((tokenSet a) ∩ (tokenSet b)).card ≤
        100 * ((tokenSet a).card + (tokenSet b).card) := by omega
    calc 200 * ((tokenSet a) ∩ (tokenSet b)).card / ((tokenSet a).card + (tokenSet b).card)
        ≤ 100 * ((tokenSet a).card + (tokenSet b).card) / ((tokenSet a).card + (tokenSet b).card) :=
          Nat.div_le_div_right hmul
      _ = 100 := Nat.mul_div_cancel 100 h

theorem tokenSetScore_comm (a b : List Char) : tokenSetScore a b = tokenSetScore b a := by
  unfold tokenSetScore
  rw [Finset.inter_comm, Nat.add_comm]

theorem hasCommonSub5_iff (a b : List Char) : hasCommonSub5 a b = true ↔ Sub5 a b := by
  unfold hasCommonSub5 Sub5
  simp only [Bool.and_eq_true, decide_eq_true_eq, List.any_eq_true, List.mem_range]
  constructor
  · rintro ⟨⟨ha, hb⟩, i, hi, hinf⟩
    exact ⟨hb, i, by omega, hinf⟩
  · rintro ⟨hb, i, hi, hinf⟩
    exact ⟨⟨by omega, hb⟩, i, by omega, hinf⟩

theorem abbrevMatch_iff (a b : List Char) : abbrevMatch a b = true ↔ AbbrevPair a b := by
  unfold abbrevMatch AbbrevPair
  simp [List.any_eq_true]

/-- Common-substring characterisation of `Sub5`: it holds exactly when the two
names share some contiguous substring of length 5.  This form is manifestly
symmetric in the two names. -/
theorem sub5_iff_common (a b : List Char) :
    Sub5 a b ↔ ∃ l : List Char, l.length = 5 ∧ l <:+: a ∧ l <:+: b := by
  constructor
  · rintro ⟨hb, i, hi, hinf⟩
    refine ⟨(a.drop i).take 5, ?_, ?_, hinf⟩
    · rw [List.length_take, List.length_drop]; omega
    · exact ((List.take_prefix 5 (a.drop i)).isInfix).trans
        ((List.drop_suffix i a).isInfix)
  · rintro ⟨l, hlen, ⟨s, t, hst⟩, hlb⟩
    have hb5 : 5 ≤ b.length := by
      have := hlb.sublist.length_le
      omega
    refine ⟨hb5, s.length, ?_, ?_⟩
    · have : a.length = s.length + l.length + t.length := by
        rw [← hst]; simp [List.length_append]; omega
      omega
    · have hdrop : a.drop s.length = l ++ t := by
        rw [← hst, List.append_assoc, List.drop_left]
      rw [hdrop, List.take_left' hlen]
      exact hlb

theorem sub5_comm (a b : List Char) : Sub5 a b ↔ Sub5 b a := by
  rw [sub5_iff_common, sub5_iff_common]
  constructor <;> rintro ⟨l, h1, h2, h3⟩ <;> exact ⟨l, h1, h3, h2⟩

theorem hasCommonSub5_comm (a b : List Char) : hasCommonSub5 a b = hasCommonSub5 b a := by
  rw [Bool.eq_iff_iff, hasCommonSub5_iff, hasCommonSub5_iff]
  exact sub5_comm a b

theorem abbrevPair_comm (a b : List Char) : AbbrevPair a b ↔ AbbrevPair b a := by
  unfold AbbrevPair
  constructor <;> rintro ⟨kv, hkv, h | h⟩ <;> exact ⟨kv, hkv, Or.symm (by tauto)⟩

theorem abbrevMatch_comm (a b : List Char) : abbrevMatch a b = abbrevMatch b a := by
  rw [Bool.eq_iff_iff, abbrevMatch_iff, abbrevMatch_iff]
  exact abbrevPair_comm a b

/-- C2: for all names, `fuzzy_match_stocks` returns a value in [0,100] (the
codomain is `Nat`, so only the upper bound is substantive), decided by the
first applicable tier in fixed order: 100 on exact equality; otherwise 90 when
the shared-5-substring condition holds (in particular even when the
abbreviation tier would also apply); otherwise 95 when the abbreviation table
accepts the pair; otherwise the token-overlap fallback score. -/
theorem C2_name_score_tiers (a b : List Char) :
    fuzzy_match_stocks a b ≤ 100 ∧
    (a = b → fuzzy_match_stocks a b = 100) ∧
    (a ≠ b → Sub5 a b → fuzzy_match_stocks a b = 90) ∧
    (a ≠ b → ¬ Sub5 a b → AbbrevPair a b → fuzzy_match_stocks a b = 95) ∧
    (a ≠ b → ¬ Sub5 a b → ¬ AbbrevPair a b →
      fuzzy_match_stocks a b = tokenSetScore a b) := by
  refine ⟨?_, ?_, ?_, ?_, ?_⟩
  · unfold fuzzy_match_stocks
    split
    · omega
    · split
      · omega
      · split
        · omega
        · exact tokenSetScore_le_100 a b
  · intro h; simp [fuzzy_match_stocks, h]
  · intro hne hs
    rw [fuzzy_match_stocks, if_neg hne, if_pos ((hasCommonSub5_iff a b).mpr hs)]
  · intro hne hs hab
    rw [fuzzy_match_stocks, if_neg hne,
      if_neg (by rw [hasCommonSub5_iff]; exact hs),
      if_pos ((abbrevMatch_iff a b).mpr hab)]
  · intro hne hs hab
    rw [fuzzy_match_stocks, if_neg hne,
      if_neg (by rw [hasCommonSub5_iff]; exact hs),
      if_neg (by rw [abbrevMatch_iff]; exact hab)]

/-- Witness for C2, at inputs where both the substring tier and the
abbreviation tier apply: the substring tier's 90 is returned. -/
theorem C2_name_score_tiers_witness :
    fuzzy_match_stocks "RELIANCE".toList "RELIANCE IND".toList = 90 ∧
    fuzzy_match_stocks "LIC".toList "LIFE INSURANCE CORP".toList = 95 := by
  constructor
  · exact (C2_name_score_tiers "RELIANCE".toList "RELIANCE IND".toList).2.2.1
      (by decide)
      ⟨by decide, 0, by decide, ⟨[], "NCE IND".toList, by decide⟩⟩
  · exact (C2_name_score_tiers "LIC".toList "LIFE INSURANCE CORP".toList).2.2.2.1
      (by decide)
      (by rintro ⟨-, i, hi, -⟩; simp at hi)
      ⟨( "LIC".toList, [ "LIFE INSURANCE CORP".toList]), by decide,
        Or.inl ⟨rfl, by decide⟩⟩

/-- C10: the full four-tier name-scoring function is symmetric.  The exact
tier is symmetric, the substring tier is equivalent to sharing a length-5
substring, the abbreviation tier checks both orientations, and the fallback
overlap score is symmetric. -/
theorem C10_name_score_symmetric (a b : List Char) :
    fuzzy_match_stocks a b = fuzzy_match_stocks b a := by
  by_cases hab : a = b
  · subst hab; rfl
  · unfold fuzzy_match_stocks
    rw [if_neg hab, if_neg (Ne.symm hab), hasCommonSub5_comm a b,
      abbrevMatch_comm a b, tokenSetScore_comm a b]

theorem scanLevel_subset (sel : Rec → List Rec → Option Rec) (lvl : Nat) :
    ∀ (snap ais cg : List Rec) (ms : List MatchRec) (mid : Nat),
      (scanLevel sel lvl snap ais cg ms mid).1 ⊆ ais ∧
      (scanLevel sel lvl snap ais cg ms mid).2.1 ⊆ cg := by
  intro snap
  induction snap with
  | nil => intro ais cg ms mid; exact ⟨fun _ h => h, fun _ h => h⟩
  | cons a rest ih =>
    intro ais cg ms mid
    cases hsel : sel a cg with
    | none => simpa [scanLevel, hsel] using ih ais cg ms mid
    | some c =>
      have h := ih (ais.filter (fun r => decide (r.id ≠ a.id)))
        (cg.filter (fun r => decide (r.id ≠ c.id)))
        (ms ++ [⟨mid, lvl, [a.id], [c.id]⟩]) (mid + 1)
      simp only [scanLevel, hsel]
      exact ⟨h.1.trans (List.filter_subset' _), h.2.trans (List.filter_subset' _)⟩

theorem scanLevel_new_matches (sel : Rec → List Rec → Option Rec) (lvl : Nat)
    (hmem : ∀ a cg c, sel a cg = some c → c ∈ cg) :
    ∀ (snap ais cg : List Rec) (ms : List MatchRec) (mid : Nat),
      ∃ new, (scanLevel sel lvl snap ais cg ms mid).2.2.1 = ms ++ new ∧
        ∀ m ∈ new, m.level = lvl ∧ (∃ x ∈ snap, m.aisIds = [x.id]) ∧
          ∃ y ∈ cg, m.cgIds = [y.id] := by
  intro snap
  induction snap with
  | nil => intro ais cg ms mid; exact ⟨[], by simp [scanLevel], by simp⟩
  | cons a rest ih =>
    intro ais cg ms mid
    cases hsel : sel a cg with
    | none =>
      obtain ⟨new, h1, h2⟩ := ih ais cg ms mid
      refine ⟨new, by simpa [scanLevel, hsel] using h1, ?_⟩
      intro m hm
      obtain ⟨hl, ⟨x, hx, hxa⟩, y, hy, hyc⟩ := h2 m hm
      exact ⟨hl, ⟨x, List.mem_cons_of_mem _ hx, hxa⟩, y, hy, hyc⟩
    | some c =>
      obtain ⟨new, h1, h2⟩ := ih (ais.filter (fun r => decide (r.id ≠ a.id)))
        (cg.filter (fun r => decide (r.id ≠ c.id)))
        (ms ++ [⟨mid, lvl, [a.id], [c.id]⟩]) (mid + 1)
      refine ⟨⟨mid, lvl, [a.id], [c.id]⟩ :: new, ?_, ?_⟩
      · simp only [scanLevel, hsel, h1, List.append_assoc, List.singleton_append]
      · intro m hm
        rcases List.mem_cons.mp hm with rfl | hm'
        · exact ⟨rfl, ⟨a, List.mem_cons_self a rest, rfl⟩, c, hmem a cg c hsel, rfl⟩
        · obtain ⟨hl, ⟨x, hx, hxa⟩, y, hy, hyc⟩ := h2 m hm'
          exact ⟨hl, ⟨x, List.mem_cons_of_mem _ hx, hxa⟩,
            y, List.filter_subset' _ hy, hyc⟩

theorem find?_first {α : Type} (p : α → Bool) :
    ∀ (l : List α) (i : Nat) (hi : i < l.length), p l[i] = true →
      (∀ j (hj : j < l.length), j < i → p l[j] = false) →
      l.find? p = some l[i] := by
  intro l
  induction l with
  | nil => intro i hi; simp at hi
  | cons x rest ih =>
    intro i hi hp hmin
    cases i with
    | zero =>
      simp only [List.getElem_cons_zero] at hp ⊢
      exact List.find?_cons_of_pos _ hp
    | succ n =>
      have hx : p x = false := by
        have h0 := hmin 0 (by simp) (Nat.succ_pos n)
        simpa using h0
      rw [List.find?_cons_of_neg _ (by simp [hx])]
      simp only [List.getElem_cons_succ]
      refine ih n (by simpa using hi) (by simpa using hp) ?_
      intro j hj hji
      have hs := hmin (j + 1) (by simpa using Nat.succ_lt_succ hj) (Nat.succ_lt_succ hji)
      simpa using hs

theorem qeq_iff (x y : Option Int) : qeq x y = true ↔ ∃ q, x = some q ∧ y = some q := by
  cases x <;> cases y <;> simp [qeq, eq_comm]

theorem dateClose_iff (x y : Option Int) :
    dateClose x y = true ↔ ∃ u v, x = some u ∧ y = some v ∧ (u - v).natAbs ≤ 1 := by
  cases x <;> cases y <;> simp [dateClose]

theorem level1Pred_iff (a c : Rec) :
    level1Pred a c = true ↔
      a.nameClean = c.nameClean ∧ (∃ q, a.qty = some q ∧ c.qty = some q) ∧
        ∃ d e, a.saleDate = some d ∧ c.saleDate = some e ∧ (e - d).natAbs ≤ 1 := by
  simp only [level1Pred, Bool.and_eq_true, decide_eq_true_eq, qeq_iff, dateClose_iff]
  constructor
  · rintro ⟨⟨hn, hq⟩, u, v, hu, hv, huv⟩
    exact ⟨hn, hq, v, u, hv, hu, huv⟩
  · rintro ⟨hn, hq, d, e, hd, he, hde⟩
    exact ⟨⟨hn, hq⟩, e, d, he, hd, hde⟩

theorem sel1_mem (a : Rec) (cg : List Rec) (c : Rec) (h : sel1 a cg = some c) :
    c ∈ cg := by
  unfold sel1 at h
  cases hd : a.saleDate with
  | none => rw [hd] at h; exact Option.noConfusion h
  | some d => rw [hd] at h; exact List.mem_of_find?_eq_some h

theorem sel2_mem (a : Rec) (cg : List Rec) (c : Rec) (h : sel2 a cg = some c) :
    c ∈ cg :=
  List.mem_of_find?_eq_some h

/-- C3: level 1 skips an AIS record with a missing sale date; with a present
sale date and no CG record satisfying the level-1 mask, the step leaves the
pools untouched; otherwise it consumes the AIS record together with the
FIRST CG record (in pool-scan order) satisfying the mask, emitting one
level-1 match and filtering exactly those two ids out of the pools before the
next AIS record is processed.  The first conjunct spells the mask out:
identical normalized stock name, equal present quantities, and sale dates
present and at most one day apart. -/
theorem C3_level1_step (a : Rec) (rest ais cg : List Rec) (ms : List MatchRec) (mid : Nat) :
    (∀ c, level1Pred a c = true ↔
      a.nameClean = c.nameClean ∧ (∃ q, a.qty = some q ∧ c.qty = some q) ∧
        ∃ d e, a.saleDate = some d ∧ c.saleDate = some e ∧ (e - d).natAbs ≤ 1) ∧
    (a.saleDate = none →
      runLevel1 (a :: rest) ais cg ms mid = runLevel1 rest ais cg ms mid) ∧
    ((∀ c ∈ cg, level1Pred a c = false) →
      runLevel1 (a :: rest) ais cg ms mid = runLevel1 rest ais cg ms mid) ∧
    (∀ i (hi : i < cg.length), a.saleDate ≠ none → level1Pred a cg[i] = true →
      (∀ j (hj : j < cg.length), j < i → level1Pred a cg[j] = false) →
      runLevel1 (a :: rest) ais cg ms mid =
        runLevel1 rest (ais.filter (fun r => decide (r.id ≠ a.id)))
          (cg.filter (fun r => decide (r.id ≠ cg[i].id)))
          (ms ++ [⟨mid, 1, [a.id], [cg[i].id]⟩]) (mid + 1)) := by
  refine ⟨level1Pred_iff a, ?_, ?_, ?_⟩
  · intro h
    simp [runLevel1, scanLevel, sel1, h]
  · intro h
    have hsel : sel1 a cg = none := by
      unfold sel1
      cases hd : a.saleDate with
      | none => rfl
      | some d =>
        simp only [List.find?_eq_none]
        intro c hc
        simp [h c hc]
    simp [runLevel1, scanLevel, hsel]
  · intro i hi hd hp hmin
    have hsel : sel1 a cg = some cg[i] := by
      unfold sel1
      cases hds : a.saleDate with
      | none => exact absurd hds hd
      | some d => exact find?_first _ cg i hi hp hmin
    simp [runLevel1, scanLevel, hsel]

/-- Witness for C3: a concrete step in which the AIS row skips the first CG
row (name mismatch) and consumes the second (same name, same quantity, sale
dates one day apart), removing both ids from the pools. -/
theorem C3_level1_step_witness :
    runLevel1 [w3a] [w3a] [w3c1, w3c2] [] 1 =
      runLevel1 [] ([w3a].filter (fun r => decide (r.id ≠ w3a.id)))
        ([w3c1, w3c2].filter (fun r => decide (r.id ≠ w3c2.id)))
        ([] ++ [⟨1, 1, [w3a.id], [w3c2.id]⟩]) 2 :=
  (C3_level1_step w3a [] [w3a] [w3c1, w3c2] [] 1).2.2.2 1 (by decide)
    (by decide) (by decide) (by decide)

theorem level3Qual_iff (a c : Rec) :
    level3Qual a c = true ↔
      80 < fuzzy_match_stocks a.nameClean c.nameClean ∧
        ∃ q, a.qty = some q ∧ c.qty = some q := by
  simp [level3Qual, Bool.and_eq_true, qeq_iff]

theorem pickBest_some_ne_none (a : Rec) :
    ∀ (cg : List Rec) (b : Rec) (bs : Nat), pickBest a cg (some b) bs ≠ none := by
  intro cg
  induction cg with
  | nil => intro b bs h; exact Option.noConfusion h
  | cons c rest ih =>
    intro b bs
    simp only [pickBest]
    split
    · exact ih c _
    · exact ih b bs

theorem pickBest_go (a : Rec) :
    ∀ (cg : List Rec) (b c : Rec),
      pickBest a cg (some b) (l3score a b) = some c →
      (c = b ∧ ∀ x ∈ cg, level3Qual a x = true → l3score a x ≤ l3score a b) ∨
      (∃ l₁ l₂, cg = l₁ ++ c :: l₂ ∧ level3Qual a c = true ∧
        l3score a b < l3score a c ∧
        (∀ x ∈ l₁, level3Qual a x = true → l3score a x < l3score a c) ∧
        (∀ x ∈ l₂, level3Qual a x = true → l3score a x ≤ l3score a c)) := by
  intro cg
  induction cg with
  | nil =>
    intro b c h
    simp only [pickBest, Option.some.injEq] at h
    exact Or.inl ⟨h.symm, by simp⟩
  | cons x rest ih =>
    intro b c h
    simp only [pickBest] at h
    split at h
    · rename_i hcond
      simp only [Bool.and_eq_true, decide_eq_true_eq] at hcond
      obtain ⟨⟨hs80, hq⟩, hbs⟩ := hcond
      have hqx : level3Qual a x = true := by
        simp [level3Qual, hs80, hq]
      rcases ih x c h with ⟨rfl, hbound⟩ | ⟨l₁, l₂, hdec, hqc, hlt, hpre, hpost⟩
      · refine Or.inr ⟨[], rest, by simp, hqx, hbs, by simp, hbound⟩
      · refine Or.inr ⟨x :: l₁, l₂, by rw [hdec]; rfl, hqc, lt_trans hbs hlt, ?_, hpost⟩
        intro y hy hqy
        rcases List.mem_cons.mp hy with rfl | hy'
        · exact hlt
        · exact hpre y hy' hqy
    · rename_i hcond
      have hxbound : level3Qual a x = true → l3score a x ≤ l3score a b := by
        intro hqx
        simp only [level3Qual, Bool.and_eq_true, decide_eq_true_eq] at hqx
        by_contra hgt
        refine hcond ?_
        simp only [Bool.and_eq_true, decide_eq_true_eq]
        exact ⟨⟨hqx.1, hqx.2⟩, by simp only [l3score] at hgt ⊢; omega⟩
      rcases ih b c h with ⟨rfl, hbound⟩ | ⟨l₁, l₂, hdec, hqc, hlt, hpre, hpost⟩
      · refine Or.inl ⟨rfl, ?_⟩
        intro y hy hqy
        rcases List.mem_cons.mp hy with rfl | hy'
        · exact hxbound hqy
        · exact hbound y hy' hqy
      · refine Or.inr ⟨x :: l₁, l₂, by rw [hdec]; rfl, hqc, hlt, ?_, hpost⟩
        intro y hy hqy
        rcases List.mem_cons.mp hy with rfl | hy'
        · exact lt_of_le_of_lt (hxbound hqy) hlt
        · exact hpre y hy' hqy

theorem sel3_some (a : Rec) :
    ∀ (cg : List Rec) (c : Rec), sel3 a cg = some c →
      ∃ l₁ l₂, cg = l₁ ++ c :: l₂ ∧ level3Qual a c = true ∧
        (∀ x ∈ l₁, level3Qual a x = true → l3score a x < l3score a c) ∧
        (∀ x ∈ l₂, level3Qual a x = true → l3score a x ≤ l3score a c) := by
  intro cg
  induction cg with
  | nil => intro c h; exact Option.noConfusion h
  | cons x rest ih =>
    intro c h
    simp only [sel3, pickBest] at h
    split at h
    · rename_i hcond
      simp only [Bool.and_eq_true, decide_eq_true_eq] at hcond
      obtain ⟨⟨hs80, hq⟩, -⟩ := hcond
      have hqx : level3Qual a x = true := by
        simp [level3Qual, hs80, hq]
      rcases pickBest_go a rest x c h with ⟨rfl, hbound⟩ | ⟨l₁, l₂, hdec, hqc, hlt, hpre, hpost⟩
      · exact ⟨[], rest, by simp, hqx, by simp, hbound⟩
      · refine ⟨x :: l₁, l₂, by rw [hdec]; rfl, hqc, ?_, hpost⟩
        intro y hy hqy
        rcases List.mem_cons.mp hy with rfl | hy'
        · exact hlt
        · exact hpre y hy' hqy
    · rename_i hcond
      have hqx : level3Qual a x = false := by
        cases hq : level3Qual a x
        · rfl
        · exfalso
          simp only [level3Qual, Bool.and_eq_true, decide_eq_true_eq] at hq
          refine hcond ?_
          simp only [Bool.and_eq_true, decide_eq_true_eq]
          exact ⟨⟨hq.1, hq.2⟩, by omega⟩
      obtain ⟨l₁, l₂, hdec, hqc, hpre, hpost⟩ := ih c h
      refine ⟨x :: l₁, l₂, by rw [hdec]; rfl, hqc, ?_, hpost⟩
      intro y hy hqy
      rcases List.mem_cons.mp hy with rfl | hy'
      · rw [hqx] at hqy; exact Bool.noConfusion hqy
      · exact hpre y hy' hqy

theorem sel3_none (a : Rec) :
    ∀ cg : List Rec, sel3 a cg = none ↔ ∀ c ∈ cg, level3Qual a c = false := by
  intro cg
  induction cg with
  | nil => simp [sel3, pickBest]
  | cons x rest ih =>
    simp only [sel3, pickBest]
    split
    · rename_i hcond
      simp only [Bool.and_eq_true, decide_eq_true_eq] at hcond
      constructor
      · intro h; exact absurd h (pickBest_some_ne_none a rest x _)
      · intro h
        have := h x (List.mem_cons_self x rest)
        simp [level3Qual, hcond.1.1, hcond.1.2] at this
    · rename_i hcond
      rw [show pickBest a rest none 0 = sel3 a rest from rfl, ih]
      constructor
      · intro h c hc
        rcases List.mem_cons.mp hc with rfl | hc'
        · by_contra hne
          have hqc : level3Qual a c = true := by
            cases hq : level3Qual a c
            · exact absurd hq hne
            · rfl
          simp only [level3Qual, Bool.and_eq_true, decide_eq_true_eq] at hqc
          refine hcond ?_
          simp only [Bool.and_eq_true, decide_eq_true_eq]
          exact ⟨⟨hqc.1, hqc.2⟩, by omega⟩
        · exact h c hc'
      · intro h c hc
        exact h c (List.mem_cons_of_mem x hc)

theorem sel3_mem (a : Rec) (cg : List Rec) (c : Rec) (h : sel3 a cg = some c) :
    c ∈ cg := by
  obtain ⟨l₁, l₂, hdec, -⟩ := sel3_some a cg c h
  rw [hdec]
  exact List.mem_append_right l₁ (List.mem_cons_self c l₂)

/-- C4: the level-3 step for one AIS record considers exactly the CG records
with score strictly above 80 and exactly equal present quantity (first
conjuncts); when none qualifies the selector is empty and the step leaves
both pools untouched, so the record proceeds to level 4; when some qualify,
the selected record is a qualifying one such that every earlier qualifying
record in CG pool order scores strictly less and every later one scores at
most as much — i.e. the maximal score, earliest on ties — and the step
consumes exactly the AIS record and that CG record. -/
theorem C4_level3_step (a : Rec) (rest ais cg : List Rec) (ms : List MatchRec) (mid : Nat) :
    (∀ c, level3Qual a c = true ↔
      80 < fuzzy_match_stocks a.nameClean c.nameClean ∧
        ∃ q, a.qty = some q ∧ c.qty = some q) ∧
    (sel3 a cg = none ↔ ∀ c ∈ cg, level3Qual a c = false) ∧
    (∀ c, sel3 a cg = some c →
      ∃ l₁ l₂, cg = l₁ ++ c :: l₂ ∧ level3Qual a c = true ∧
        (∀ x ∈ l₁, level3Qual a x = true → l3score a x < l3score a c) ∧
        (∀ x ∈ l₂, level3Qual a x = true → l3score a x ≤ l3score a c)) ∧
    (sel3 a cg = none →
      runLevel3 (a :: rest) ais cg ms mid = runLevel3 rest ais cg ms mid) ∧
    (∀ c, sel3 a cg = some c →
      runLevel3 (a :: rest) ais cg ms mid =
        runLevel3 rest (ais.filter (fun r => decide (r.id ≠ a.id)))
          (cg.filter (fun r => decide (r.id ≠ c.id)))
          (ms ++ [⟨mid, 3, [a.id], [c.id]⟩]) (mid + 1)) := by
  refine ⟨level3Qual_iff a, sel3_none a cg, sel3_some a cg, ?_, ?_⟩
  · intro h
    simp [runLevel3, scanLevel, h]
  · intro c h
    simp [runLevel3, scanLevel, h]

/-- Witness for C4: three qualifying CG rows scoring 90, 95 and 95 with the
right quantity; the selector picks the first 95 (highest score, earliest on
the tie) and the step consumes that pair. -/
theorem C4_level3_step_witness :
    sel3 w4a [w4c1, w4c2, w4c3] = some w4c2 ∧
    runLevel3 [w4a] [w4a] [w4c1, w4c2, w4c3] [] 1 =
      runLevel3 [] ([w4a].filter (fun r => decide (r.id ≠ w4a.id)))
        ([w4c1, w4c2, w4c3].filter (fun r => decide (r.id ≠ w4c2.id)))
        ([] ++ [⟨1, 3, [w4a.id], [w4c2.id]⟩]) 2 :=
  ⟨by decide,
   (C4_level3_step w4a [] [w4a] [w4c1, w4c2, w4c3] [] 1).2.2.2.2 w4c2 (by decide)⟩

theorem runLevel4_subset :
    ∀ (gs cgs : List (List Char × List Rec)) (ua uc : List Rec)
      (ms : List MatchRec) (mid : Nat),
      (runLevel4 gs cgs ua uc ms mid).1 ⊆ ua ∧
      (runLevel4 gs cgs ua uc ms mid).2.1 ⊆ uc
  | [], _, _, _, _, _ => ⟨fun _ h => h, fun _ h => h⟩
  | (k, g) :: rest, cgs, ua, uc, ms, mid => by
    cases hpk : pickBestKey k (cgs.map (fun p => p.1)) none 0 with
    | none => simpa [runLevel4, hpk] using runLevel4_subset rest cgs ua uc ms mid
    | some ck =>
      by_cases hck : ck = []
      · simpa [runLevel4, hpk, hck] using runLevel4_subset rest cgs ua uc ms mid
      · by_cases hsum : sumQty g = sumQty (cgGroupLookup cgs ck)
        · have ih := runLevel4_subset rest cgs
            (ua.filter (fun r => decide (r.id ∉ g.map (fun x => x.id))))
            (uc.filter (fun r => decide (r.id ∉ (cgGroupLookup cgs ck).map (fun x => x.id))))
            (ms ++ [⟨mid, 4, g.map (fun x => x.id),
              (cgGroupLookup cgs ck).map (fun x => x.id)⟩]) (mid + 1)
          simp only [runLevel4, hpk, if_neg hck, if_pos hsum]
          exact ⟨ih.1.trans (List.filter_subset' _), ih.2.trans (List.filter_subset' _)⟩
        · simpa [runLevel4, hpk, hck, hsum] using runLevel4_subset rest cgs ua uc ms mid

theorem cgGroupLookup_cases (cgs : List (List Char × List Rec)) (ck : List Char) :
    cgGroupLookup cgs ck = [] ∨ ∃ p ∈ cgs, cgGroupLookup cgs ck = p.2 := by
  unfold cgGroupLookup
  cases hf : cgs.find? (fun p => decide (p.1 = ck)) with
  | none => exact Or.inl rfl
  | some p => exact Or.inr ⟨p, List.mem_of_find?_eq_some hf, rfl⟩

/-- Core behaviour of the level-4 loop: the emitted matches are appended to
the incoming list; every emitted match covers exactly the id set of one AIS
group of `gs` and of one (stale) CG group of `cgs`, and none of the ids it
covers survives in the corresponding residual pool; and a pool record whose
id is covered by no emitted match survives the level. -/
theorem runLevel4_spec :
    ∀ (gs cgs : List (List Char × List Rec)) (ua uc : List Rec)
      (ms : List MatchRec) (mid : Nat),
      gs.Pairwise (fun p q => ∀ i ∈ p.2.map (fun r => r.id),
        i ∉ q.2.map (fun r => r.id)) →
      ∃ new, (runLevel4 gs cgs ua uc ms mid).2.2.1 = ms ++ new ∧
        (∀ m ∈ new, m.level = 4 ∧
          (∃ p ∈ gs, m.aisIds = p.2.map (fun r => r.id)) ∧
          (m.cgIds = [] ∨ ∃ p ∈ cgs, m.cgIds = p.2.map (fun r => r.id)) ∧
          (∀ r ∈ (runLevel4 gs cgs ua uc ms mid).1, r.id ∉ m.aisIds) ∧
          (∀ r ∈ (runLevel4 gs cgs ua uc ms mid).2.1, r.id ∉ m.cgIds)) ∧
        (∀ r ∈ ua, (∀ m ∈ new, r.id ∉ m.aisIds) →
          r ∈ (runLevel4 gs cgs ua uc ms mid).1) ∧
        (∀ p ∈ gs, (∃ m ∈ new, m.aisIds = p.2.map (fun r => r.id)) ∨
          ∀ r ∈ p.2, r ∈ ua → r ∈ (runLevel4 gs cgs ua uc ms mid).1) := by
  intro gs
  induction gs with
  | nil =>
    intro cgs ua uc ms mid hpw
    exact ⟨[], by simp [runLevel4], by simp, fun r hr _ => hr, by simp⟩
  | cons kg rest ih =>
    obtain ⟨k, g⟩ := kg
    intro cgs ua uc ms mid hpw
    have hpw' := (List.pairwise_cons.mp hpw).2
    have hhead := (List.pairwise_cons.mp hpw).1
    cases hpk : pickBestKey k (cgs.map (fun p => p.1)) none 0 with
    | none =>
      obtain ⟨new, h1, h2, h3, h4⟩ := ih cgs ua uc ms mid hpw'
      refine ⟨new, ?_, ?_, ?_, ?_⟩
      · simpa [runLevel4, hpk] using h1
      · intro m hm
        obtain ⟨hl, ⟨p, hp, hpa⟩, hcg, hua, huc⟩ := h2 m hm
        exact ⟨hl, ⟨p, List.mem_cons_of_mem _ hp, hpa⟩, hcg,
          by simpa [runLevel4, hpk] using hua, by simpa [runLevel4, hpk] using huc⟩
      · intro r hr hnone
        simpa [runLevel4, hpk] using h3 r hr hnone
      · intro p hp
        rcases List.mem_cons.mp hp with rfl | hp'
        · refine Or.inr ?_
          intro r hr hua
          have : ∀ m ∈ new, r.id ∉ m.aisIds := by
            intro m hm
            obtain ⟨-, ⟨q, hq, hqa⟩, -, -, -⟩ := h2 m hm
            rw [hqa]
            exact hhead q hq r.id (List.mem_map_of_mem (fun x => x.id) hr)
          simpa [runLevel4, hpk] using h3 r hua this
        · rcases h4 p hp' with ⟨m, hm, hma⟩ | hsurv
          · exact Or.inl ⟨m, hm, hma⟩
          · refine Or.inr ?_
            intro r hr hua
            simpa [runLevel4, hpk] using hsurv r hr hua
    | some ck =>
      by_cases hck : ck = []
      · obtain ⟨new, h1, h2, h3, h4⟩ := ih cgs ua uc ms mid hpw'
        refine ⟨new, ?_, ?_, ?_, ?_⟩
        · simpa [runLevel4, hpk, hck] using h1
        · intro m hm
          obtain ⟨hl, ⟨p, hp, hpa⟩, hcg, hua, huc⟩ := h2 m hm
          exact ⟨hl, ⟨p, List.mem_cons_of_mem _ hp, hpa⟩, hcg,
            by simpa [runLevel4, hpk, hck] using hua,
            by simpa [runLevel4, hpk, hck] using huc⟩
        · intro r hr hnone
          simpa [runLevel4, hpk, hck] using h3 r hr hnone
        · intro p hp
          rcases List.mem_cons.mp hp with rfl | hp'
          · refine Or.inr ?_
            intro r hr hua
            have : ∀ m ∈ new, r.id ∉ m.aisIds := by
              intro m hm
              obtain ⟨-, ⟨q, hq, hqa⟩, -, -, -⟩ := h2 m hm
              rw [hqa]
              exact hhead q hq r.id (List.mem_map_of_mem (fun x => x.id) hr)
            simpa [runLevel4, hpk, hck] using h3 r hua this
          · rcases h4 p hp' with ⟨m, hm, hma⟩ | hsurv
            · exact Or.inl ⟨m, hm, hma⟩
            · refine Or.inr ?_
              intro r hr hua
              simpa [runLevel4, hpk, hck] using hsurv r hr hua
      · by_cases hsum : sumQty g = sumQty (cgGroupLookup cgs ck)
        · -- an aggregate match is emitted for this group
          set mk : MatchRec := ⟨mid, 4, g.map (fun x => x.id),
            (cgGroupLookup cgs ck).map (fun x => x.id)⟩ with hmk
          set ua' := ua.filter (fun r => decide (r.id ∉ g.map (fun x => x.id))) with hua'
          set uc' := uc.filter
            (fun r => decide (r.id ∉ (cgGroupLookup cgs ck).map (fun x => x.id))) with huc'
          obtain ⟨new, h1, h2, h3, h4⟩ := ih cgs ua' uc' (ms ++ [mk]) (mid + 1) hpw'
          have hstep : runLevel4 ((k, g) :: rest) cgs ua uc ms mid =
              runLevel4 rest cgs ua' uc' (ms ++ [mk]) (mid + 1) := by
            simp only [runLevel4, hpk, if_neg hck, if_pos hsum, hmk, hua', huc']
          have hfin := runLevel4_subset rest cgs ua' uc' (ms ++ [mk]) (mid + 1)
          refine ⟨mk :: new, ?_, ?_, ?_, ?_⟩
          · rw [hstep, h1]
            simp
          · intro m hm
            rcases List.mem_cons.mp hm with rfl | hm'
            · refine ⟨rfl, ⟨(k, g), List.mem_cons_self _ _, rfl⟩, ?_, ?_, ?_⟩
              · rcases cgGroupLookup_cases cgs ck with hnil | ⟨p, hp, hpe⟩
                · exact Or.inl (by simp [hmk, hnil])
                · exact Or.inr ⟨p, hp, by simp [hmk, hpe]⟩
              · intro r hr
                rw [hstep] at hr
                have hr' := hfin.1 hr
                rw [hua', List.mem_filter] at hr'
                simpa [hmk] using of_decide_eq_true hr'.2
              · intro r hr
                rw [hstep] at hr
                have hr' := hfin.2 hr
                rw [huc', List.mem_filter] at hr'
                simpa [hmk] using of_decide_eq_true hr'.2
            · obtain ⟨hl, ⟨p, hp, hpa⟩, hcg, hua, huc⟩ := h2 m hm'
              exact ⟨hl, ⟨p, List.mem_cons_of_mem _ hp, hpa⟩, hcg,
                by rw [hstep]; exact hua, by rw [hstep]; exact huc⟩
          · intro r hr hnone
            have hrm : r ∈ ua' := by
              rw [hua', List.mem_filter]
              refine ⟨hr, decide_eq_true ?_⟩
              have := hnone mk (List.mem_cons_self _ _)
              simpa [hmk] using this
            rw [hstep]
            exact h3 r hrm (fun m hm => hnone m (List.mem_cons_of_mem _ hm))
          · intro p hp
            rcases List.mem_cons.mp hp with rfl | hp'
            · exact Or.inl ⟨mk, List.mem_cons_self _ _, rfl⟩
            · rcases h4 p hp' with ⟨m, hm, hma⟩ | hsurv
              · exact Or.inl ⟨m, List.mem_cons_of_mem _ hm, hma⟩
              · refine Or.inr ?_
                intro r hr hua
                have hrm : r ∈ ua' := by
                  rw [hua', List.mem_filter]
                  refine ⟨hua, decide_eq_true ?_⟩
                  intro hmem
                  exact (List.pairwise_cons.mp hpw).1 p hp' r.id
                    hmem (List.mem_map_of_mem (fun x => x.id) hr)
                rw [hstep]
                exact hsurv r hr hrm
        · obtain ⟨new, h1, h2, h3, h4⟩ := ih cgs ua uc ms mid hpw'
          refine ⟨new, ?_, ?_, ?_, ?_⟩
          · simpa [runLevel4, hpk, hck, hsum] using h1
          · intro m hm
            obtain ⟨hl, ⟨p, hp, hpa⟩, hcg, hua, huc⟩ := h2 m hm
            exact ⟨hl, ⟨p, List.mem_cons_of_mem _ hp, hpa⟩, hcg,
              by simpa [runLevel4, hpk, hck, hsum] using hua,
              by simpa [runLevel4, hpk, hck, hsum] using huc⟩
          · intro r hr hnone
            simpa [runLevel4, hpk, hck, hsum] using h3 r hr hnone
          · intro p hp
            rcases List.mem_cons.mp hp with rfl | hp'
            · refine Or.inr ?_
              intro r hr hua
              have : ∀ m ∈ new, r.id ∉ m.aisIds := by
                intro m hm
                obtain ⟨-, ⟨q, hq, hqa⟩, -, -, -⟩ := h2 m hm
                rw [hqa]
                exact hhead q hq r.id (List.mem_map_of_mem (fun x => x.id) hr)
              simpa [runLevel4, hpk, hck, hsum] using h3 r hua this
            · rcases h4 p hp' with ⟨m, hm, hma⟩ | hsurv
              · exact Or.inl ⟨m, hm, hma⟩
              · refine Or.inr ?_
                intro r hr hua
                simpa [runLevel4, hpk, hck, hsum] using hsurv r hr hua

theorem insertKey_perm (k : List Char) :
    ∀ l : List (List Char), (insertKey k l).Perm (k :: l) := by
  intro l
  induction l with
  | nil => exact List.Perm.refl _
  | cons x xs ih =>
    simp only [insertKey]
    split
    · exact List.Perm.refl _
    · exact (List.Perm.cons x ih).trans (List.Perm.swap k x xs)

theorem sortKeys_perm : ∀ l : List (List Char), (sortKeys l).Perm l := by
  intro l
  induction l with
  | nil => exact List.Perm.refl _
  | cons x xs ih =>
    exact (insertKey_perm x (sortKeys xs)).trans (List.Perm.cons x ih)

theorem sortedKeys_nodup (pool : List Rec) : (sortedKeys pool).Nodup := by
  unfold sortedKeys
  exact (sortKeys_perm _).symm.nodup (List.nodup_dedup _)

theorem groupsOf_mem (pool : List Rec) :
    ∀ p ∈ groupsOf pool, ∀ r ∈ p.2, r ∈ pool ∧ r.nameClean = p.1 := by
  intro p hp r hr
  unfold groupsOf at hp
  rw [List.mem_map] at hp
  obtain ⟨k, hk, rfl⟩ := hp
  rw [groupOf, List.mem_filter] at hr
  exact ⟨hr.1, of_decide_eq_true hr.2⟩

theorem groupsOf_pairwise (pool : List Rec)
    (h : (pool.map (fun r => r.id)).Nodup) :
    (groupsOf pool).Pairwise (fun p q => ∀ i ∈ p.2.map (fun r => r.id),
      i ∉ q.2.map (fun r => r.id)) := by
  unfold groupsOf
  rw [List.pairwise_map]
  refine (sortedKeys_nodup pool).imp ?_
  intro k k' hne i hik hik'
  rw [List.mem_map] at hik hik'
  obtain ⟨r, hr, hri⟩ := hik
  obtain ⟨r', hr', hri'⟩ := hik'
  rw [groupOf, List.mem_filter] at hr hr'
  have hrr : r = r' :=
    List.inj_on_of_nodup_map h hr.1 hr'.1 (by rw [hri, hri'])
  apply hne
  have h1 := of_decide_eq_true hr.2
  have h2 := of_decide_eq_true hr'.2
  rw [← h1, ← h2, hrr]

/-- C5: over the pools reaching level 4 (AIS ids distinct, as `load_data`
guarantees), the level-4 pass is atomic per name group: every aggregate
match it emits excludes all its covered ids from both residual pools (no
record of either constituent group remains unmatched), and every AIS name
group either is covered by exactly the id set of one emitted match or —
when the key-score threshold or the summed-quantity equality test fails for
it — survives in the residual AIS pool in full (no partial consumption). -/
theorem C5_aggregate_atomicity (ua uc : List Rec) (ms : List MatchRec) (mid : Nat)
    (hnodup : (ua.map (fun r => r.id)).Nodup) :
    ∃ new, (runLevel4 (groupsOf ua) (groupsOf uc) ua uc ms mid).2.2.1 = ms ++ new ∧
      (∀ m ∈ new, m.level = 4 ∧
        (∀ r ∈ (runLevel4 (groupsOf ua) (groupsOf uc) ua uc ms mid).1,
          r.id ∉ m.aisIds) ∧
        (∀ r ∈ (runLevel4 (groupsOf ua) (groupsOf uc) ua uc ms mid).2.1,
          r.id ∉ m.cgIds)) ∧
      ∀ p ∈ groupsOf ua,
        (∃ m ∈ new, m.aisIds = p.2.map (fun r => r.id)) ∨
        ∀ r ∈ p.2, r ∈ (runLevel4 (groupsOf ua) (groupsOf uc) ua uc ms mid).1 := by
  obtain ⟨new, h1, h2, h3, h4⟩ := runLevel4_spec (groupsOf ua) (groupsOf uc) ua uc ms mid
    (groupsOf_pairwise ua hnodup)
  refine ⟨new, h1, ?_, ?_⟩
  · intro m hm
    obtain ⟨hl, -, -, hua, huc⟩ := h2 m hm
    exact ⟨hl, hua, huc⟩
  · intro p hp
    rcases h4 p hp with h | h
    · exact Or.inl h
    · exact Or.inr (fun r hr => h r hr (groupsOf_mem ua p hp r hr).1)

/-- Witness for C5 at the spec's Scenario B: two AIS rows of quantity 5 and
one CG row of quantity 10 under the same name reach level 4 and are consumed
by a single aggregate match. -/
theorem C5_aggregate_atomicity_witness :
    ∃ new,
      (runLevel4 (groupsOf [w5a1, w5a2]) (groupsOf [w5c1])
        [w5a1, w5a2] [w5c1] [] 1).2.2.1 = [] ++ new ∧
      (∀ m ∈ new, m.level = 4 ∧
        (∀ r ∈ (runLevel4 (groupsOf [w5a1, w5a2]) (groupsOf [w5c1])
          [w5a1, w5a2] [w5c1] [] 1).1, r.id ∉ m.aisIds) ∧
        (∀ r ∈ (runLevel4 (groupsOf [w5a1, w5a2]) (groupsOf [w5c1])
          [w5a1, w5a2] [w5c1] [] 1).2.1, r.id ∉ m.cgIds)) ∧
      ∀ p ∈ groupsOf [w5a1, w5a2],
        (∃ m ∈ new, m.aisIds = p.2.map (fun r => r.id)) ∨
        ∀ r ∈ p.2, r ∈ (runLevel4 (groupsOf [w5a1, w5a2]) (groupsOf [w5c1])
          [w5a1, w5a2] [w5c1] [] 1).1 :=
  C5_aggregate_atomicity [w5a1, w5a2] [w5c1] [] 1 (by decide)

/-- Key property of level 1: if some AIS record of the snapshot and some CG
record satisfy the level-1 mask, level 1 never finishes with both still in
the pools — either the AIS record was consumed (by that CG record or an
earlier-scanned one), or the CG record had already been consumed by an
earlier AIS record.  The hypothesis on `cg` says the CG record's id
identifies it in the pool (true for `load_data` pools, whose ids are
distinct). -/
theorem scanLevel1_pair (a c : Rec) (hpred : level1Pred a c = true) :
    ∀ (snap ais cg : List Rec) (ms : List MatchRec) (mid : Nat),
      a ∈ snap → (∀ x ∈ cg, x.id = c.id → x = c) →
      ¬(a.id ∈ (scanLevel sel1 1 snap ais cg ms mid).1.map (fun r => r.id) ∧
        c.id ∈ (scanLevel sel1 1 snap ais cg ms mid).2.1.map (fun r => r.id)) := by
  have hdate : a.saleDate ≠ none := by
    obtain ⟨-, -, d, e, hd, -⟩ := (level1Pred_iff a c).mp hpred
    rw [hd]
    exact fun h => Option.noConfusion h
  intro snap
  induction snap with
  | nil =>
    intro ais cg ms mid ha _
    exact absurd ha (List.not_mem_nil a)
  | cons x rest ih =>
    intro ais cg ms mid ha hidc
    by_cases hxa : x = a
    · subst hxa
      cases hsel : sel1 x cg with
      | none =>
        have hcnot : c ∉ cg := by
          intro hc
          unfold sel1 at hsel
          cases hd : x.saleDate with
          | none => exact hdate hd
          | some d =>
            rw [hd, List.find?_eq_none] at hsel
            exact hsel c hc hpred
        simp only [scanLevel, hsel]
        rintro ⟨-, hcid⟩
        rw [List.mem_map] at hcid
        obtain ⟨y, hy, hyid⟩ := hcid
        have hy' : y ∈ cg := (scanLevel_subset sel1 1 rest ais cg ms mid).2 hy
        exact hcnot (hidc y hy' hyid ▸ hy')
      | some c0 =>
        simp only [scanLevel, hsel]
        rintro ⟨haid, -⟩
        rw [List.mem_map] at haid
        obtain ⟨y, hy, hyid⟩ := haid
        have hy' := (scanLevel_subset sel1 1 rest
          (ais.filter (fun r => decide (r.id ≠ x.id)))
          (cg.filter (fun r => decide (r.id ≠ c0.id)))
          (ms ++ [⟨mid, 1, [x.id], [c0.id]⟩]) (mid + 1)).1 hy
        rw [List.mem_filter] at hy'
        exact of_decide_eq_true hy'.2 hyid
    · have ha' : a ∈ rest := by
        rcases List.mem_cons.mp ha with h | h
        · exact absurd h.symm hxa
        · exact h
      cases hsel : sel1 x cg with
      | none =>
        simp only [scanLevel, hsel]
        exact ih ais cg ms mid ha' hidc
      | some c0 =>
        simp only [scanLevel, hsel]
        refine ih (ais.filter (fun r => decide (r.id ≠ x.id)))
          (cg.filter (fun r => decide (r.id ≠ c0.id)))
          (ms ++ [⟨mid, 1, [x.id], [c0.id]⟩]) (mid + 1) ha' ?_
        intro y hy hyid
        exact hidc y (List.filter_subset' _ hy) hyid

theorem scanLevel_sublist (sel : Rec → List Rec → Option Rec) (lvl : Nat) :
    ∀ (snap ais cg : List Rec) (ms : List MatchRec) (mid : Nat),
      List.Sublist (scanLevel sel lvl snap ais cg ms mid).1 ais ∧
      List.Sublist (scanLevel sel lvl snap ais cg ms mid).2.1 cg := by
  intro snap
  induction snap with
  | nil => intro ais cg ms mid; exact ⟨List.Sublist.refl ais, List.Sublist.refl cg⟩
  | cons a rest ih =>
    intro ais cg ms mid
    cases hsel : sel a cg with
    | none => simpa [scanLevel, hsel] using ih ais cg ms mid
    | some c =>
      have h := ih (ais.filter (fun r => decide (r.id ≠ a.id)))
        (cg.filter (fun r => decide (r.id ≠ c.id)))
        (ms ++ [⟨mid, lvl, [a.id], [c.id]⟩]) (mid + 1)
      simp only [scanLevel, hsel]
      exact ⟨h.1.trans (List.filter_sublist ais), h.2.trans (List.filter_sublist cg)⟩

/-- C6: level precedence.  For any two input records satisfying the level-1
mask (same normalized name, equal quantities, both sale dates present and at
most one day apart), any output match of `match_records` that covers both of
their ids is a level-1 match; the pair never appears together as a level-2,
level-3 or level-4 match.  The id-distinctness hypotheses hold for loaded
tables, whose ids are `1..n` per side. -/
theorem C6_level_precedence (ais cg : List Rec) (a c : Rec)
    (ha : a ∈ ais) (hc : c ∈ cg) (hpred : level1Pred a c = true)
    (hna : (ais.map (fun r => r.id)).Nodup)
    (hnc : (cg.map (fun r => r.id)).Nodup) :
    ∀ m ∈ (match_records ais cg).matchList,
      a.id ∈ m.aisIds → c.id ∈ m.cgIds → m.level = 1 := by
  intro m hm hma hmc
  -- after level 1, the pools no longer contain both ids
  have hkey : ¬(a.id ∈ (stage1 ais cg).1.map (fun r => r.id) ∧
      c.id ∈ (stage1 ais cg).2.1.map (fun r => r.id)) :=
    scanLevel1_pair a c hpred ais ais cg [] 1 ha
      (fun x hx hxid => List.inj_on_of_nodup_map hnc hx hc hxid)
  -- pools only shrink across levels 2 and 3
  have s2a : (stage2 ais cg).1 ⊆ (stage1 ais cg).1 :=
    (scanLevel_subset sel2 2 (stage1 ais cg).1 (stage1 ais cg).1 (stage1 ais cg).2.1
      (stage1 ais cg).2.2.1 (stage1 ais cg).2.2.2).1
  have s2c : (stage2 ais cg).2.1 ⊆ (stage1 ais cg).2.1 :=
    (scanLevel_subset sel2 2 (stage1 ais cg).1 (stage1 ais cg).1 (stage1 ais cg).2.1
      (stage1 ais cg).2.2.1 (stage1 ais cg).2.2.2).2
  have s3a : (stage3 ais cg).1 ⊆ (stage2 ais cg).1 :=
    (scanLevel_subset sel3 3 (stage2 ais cg).1 (stage2 ais cg).1 (stage2 ais cg).2.1
      (stage2 ais cg).2.2.1 (stage2 ais cg).2.2.2).1
  have s3c : (stage3 ais cg).2.1 ⊆ (stage2 ais cg).2.1 :=
    (scanLevel_subset sel3 3 (stage2 ais cg).1 (stage2 ais cg).1 (stage2 ais cg).2.1
      (stage2 ais cg).2.2.1 (stage2 ais cg).2.2.2).2
  -- id-distinctness survives to the post-level-3 AIS pool
  have hn3 : ((stage3 ais cg).1.map (fun r => r.id)).Nodup := by
    have t1 : List.Sublist (stage1 ais cg).1 ais :=
      (scanLevel_sublist sel1 1 ais ais cg [] 1).1
    have t2 : List.Sublist (stage2 ais cg).1 (stage1 ais cg).1 :=
      (scanLevel_sublist sel2 2 (stage1 ais cg).1 (stage1 ais cg).1 (stage1 ais cg).2.1
        (stage1 ais cg).2.2.1 (stage1 ais cg).2.2.2).1
    have t3 : List.Sublist (stage3 ais cg).1 (stage2 ais cg).1 :=
      (scanLevel_sublist sel3 3 (stage2 ais cg).1 (stage2 ais cg).1 (stage2 ais cg).2.1
        (stage2 ais cg).2.2.1 (stage2 ais cg).2.2.2).1
    exact hna.sublist (((t3.trans t2).trans t1).map (fun r => r.id))
  -- decompositions of the matches appended by each level
  obtain ⟨n1, e1, p1⟩ := scanLevel_new_matches sel1 1 sel1_mem ais ais cg [] 1
  obtain ⟨n2, e2, p2⟩ := scanLevel_new_matches sel2 2 sel2_mem (stage1 ais cg).1
    (stage1 ais cg).1 (stage1 ais cg).2.1 (stage1 ais cg).2.2.1 (stage1 ais cg).2.2.2
  obtain ⟨n3, e3, p3⟩ := scanLevel_new_matches sel3 3 sel3_mem (stage2 ais cg).1
    (stage2 ais cg).1 (stage2 ais cg).2.1 (stage2 ais cg).2.2.1 (stage2 ais cg).2.2.2
  obtain ⟨n4, e4, p4, -, -⟩ := runLevel4_spec (groupsOf (stage3 ais cg).1)
    (groupsOf (stage3 ais cg).2.1) (stage3 ais cg).1 (stage3 ais cg).2.1
    (stage3 ais cg).2.2.1 (stage3 ais cg).2.2.2 (groupsOf_pairwise _ hn3)
  have hms1 : (stage1 ais cg).2.2.1 = [] ++ n1 := e1
  have hms2 : (stage2 ais cg).2.2.1 = (stage1 ais cg).2.2.1 ++ n2 := e2
  have hms3 : (stage3 ais cg).2.2.1 = (stage2 ais cg).2.2.1 ++ n3 := e3
  have hms4 : (stage4 ais cg).2.2.1 = (stage3 ais cg).2.2.1 ++ n4 := e4
  have hm' : m ∈ (stage4 ais cg).2.2.1 := hm
  rw [hms4, hms3, hms2, hms1] at hm'
  simp only [List.nil_append, List.mem_append] at hm'
  rcases hm' with ((h1 | h2) | h3) | h4
  · exact (p1 m h1).1
  · -- a level-2 match covering the pair contradicts level-1 consumption
    exfalso
    obtain ⟨-, ⟨x, hx, hxa⟩, y, hy, hyc⟩ := p2 m h2
    refine hkey ⟨?_, ?_⟩
    · rw [hxa] at hma
      exact List.mem_map.mpr ⟨x, hx, (List.mem_singleton.mp hma).symm⟩
    · rw [hyc] at hmc
      exact List.mem_map.mpr ⟨y, hy, (List.mem_singleton.mp hmc).symm⟩
  · exfalso
    obtain ⟨-, ⟨x, hx, hxa⟩, y, hy, hyc⟩ := p3 m h3
    refine hkey ⟨?_, ?_⟩
    · rw [hxa] at hma
      exact List.mem_map.mpr ⟨x, s2a hx, (List.mem_singleton.mp hma).symm⟩
    · rw [hyc] at hmc
      exact List.mem_map.mpr ⟨y, s2c hy, (List.mem_singleton.mp hmc).symm⟩
  · exfalso
    obtain ⟨-, ⟨p, hp, hpa⟩, hcg, -, -⟩ := p4 m h4
    refine hkey ⟨?_, ?_⟩
    · rw [hpa] at hma
      rw [List.mem_map] at hma
      obtain ⟨r, hr, hri⟩ := hma
      have hr3 := (groupsOf_mem _ p hp r hr).1
      exact List.mem_map.mpr ⟨r, s2a (s3a hr3), hri⟩
    · rcases hcg with hnil | ⟨q, hq, hqc⟩
      · rw [hnil] at hmc
        exact absurd hmc (List.not_mem_nil c.id)
      · rw [hqc] at hmc
        rw [List.mem_map] at hmc
        obtain ⟨r, hr, hri⟩ := hmc
        have hr3 := (groupsOf_mem _ q hq r hr).1
        exact List.mem_map.mpr ⟨r, s2c (s3c hr3), hri⟩

/-- Witness for C6: one AIS row and one CG row satisfying the level-1 mask;
the run produces exactly one match, covering the pair, and the theorem
applied to that concrete match confirms it is a level-1 match. -/
theorem C6_level_precedence_witness :
    (match_records [w6a] [w6c]).matchList = [⟨1, 1, [1], [1]⟩] ∧
    (⟨1, 1, [1], [1]⟩ : MatchRec).level = 1 :=
  ⟨by decide,
   C6_level_precedence [w6a] [w6c] w6a w6c (by decide) (by decide) (by decide)
     (by decide) (by decide) ⟨1, 1, [1], [1]⟩ (by decide) (by decide) (by decide)⟩

/-- C1 (refutation by evaluation): on this concrete pair of loaded tables
the two AIS name groups both score above 85 against the single CG name
group, with equal quantity sums, so level 4 emits TWO aggregate matches that
both consume CG records 1 and 2 — the second located through the stale CG
`groupby` table after those records were already consumed.  Hence CG records
1 and 2 are each consumed by two distinct MatchRecords, and the number of
consumed CG ids (4) plus the residual CG pool (0) differs from the CG input
size (2): the partition invariant fails on the CG side. -/
theorem C1_partition_violated :
    match_records [w1a1, w1a2] [w1c1, w1c2] =
      ⟨[⟨1, 4, [1], [1, 2]⟩, ⟨2, 4, [2], [1, 2]⟩], [], []⟩ ∧
    ((match_records [w1a1, w1a2] [w1c1, w1c2]).matchList.map
      (fun m => m.cgIds.length)).sum +
      (match_records [w1a1, w1a2] [w1c1, w1c2]).unmatchedCG.length ≠
      [w1c1, w1c2].length := by
  constructor
  · decide
  · decide

/-- C7 (refutation by evaluation): with both tables lacking their optional
Purchase Value column (the spec's Scenario B otherwise), the run reaches the
level-4 aggregate record construction and raises `AttributeError` from
`.get('Purchase Value (AIS)', 0).sum()` instead of completing with the field
missing. -/
theorem C7_absent_purchase_value_crashes :
    reconcileE ⟨true, true, true, true, true, true, true, true, false, false⟩
      [w5a1, w5a2] [w5c1] = .error .attributeError := rfl

/-- C8 (counterexample): a table missing the required Sales Value (AIS)
column completes the run silently — no error of any kind — when no match is
emitted (here: one AIS row, empty CG table), because the column is only ever
read while building a match record. -/
theorem C8_missing_required_column_silent :
    reconcileE ⟨true, true, true, true, false, true, true, true, true, true⟩
      [w8a] [] = .ok ⟨[], [w8a], []⟩ := rfl

/-- C8 (amended): only the Stock Name columns are checked unconditionally,
during load, and their absence fails the run with a key-lookup error naming
the missing column (there is no distinct SchemaError in the code); the AIS
side is read first. -/
theorem C8_missing_stock_name_fails (sh : Shape) (ais cg : List Rec) :
    (sh.aName = false →
      reconcileE sh ais cg = .error (.keyError .stockNameA)) ∧
    (sh.aName = true → sh.cName = false →
      reconcileE sh ais cg = .error (.keyError .stockNameC)) := by
  constructor
  · intro h
    simp [reconcileE, load_data_check, h]
  · intro h1 h2
    simp [reconcileE, load_data_check, h1, h2]

/-- Witness for the amended C8, at concrete shapes with each Stock Name
column absent in turn. -/
theorem C8_missing_stock_name_fails_witness :
    reconcileE ⟨false, true, true, true, true, true, true, true, true, true⟩
      [] [] = .error (.keyError .stockNameA) ∧
    reconcileE ⟨true, false, true, true, true, true, true, true, true, true⟩
      [] [] = .error (.keyError .stockNameC) :=
  ⟨(C8_missing_stock_name_fails
      ⟨false, true, true, true, true, true, true, true, true, true⟩ [] []).1 rfl,
   (C8_missing_stock_name_fails
      ⟨true, false, true, true, true, true, true, true, true, true⟩ [] []).2 rfl rfl⟩

/-- C9 (counterexample): for the standard four-column input, the published
unmatched table does NOT consist of exactly the original input columns — the
engine-added `Match ID` and `Match Type` columns survive the final drop. -/
theorem C9_match_columns_not_stripped :
    unmatchedCols [.orig 0, .orig 1, .orig 2, .orig 3] ≠
      [.orig 0, .orig 1, .orig 2, .orig 3] := by
  decide

/-- C9 (amended): for any input whose columns do not clash with the four
engine-added names, the published unmatched table holds the original input
columns followed by the (empty) `Match ID` and `Match Type` columns; only
the two normalization helper columns `Stock Name Clean` and `ID` are
stripped. -/
theorem C9_unmatched_columns (inp : List PCol)
    (h1 : PCol.stockNameClean ∉ inp) (h2 : PCol.seqId ∉ inp)
    (h3 : PCol.matchId ∉ inp) (h4 : PCol.matchType ∉ inp) :
    unmatchedCols inp = inp ++ [PCol.matchId, PCol.matchType] := by
  have hfilter : inp.filter
      (fun c => decide (c ≠ PCol.stockNameClean) && decide (c ≠ PCol.seqId)) = inp := by
    rw [List.filter_eq_self]
    intro x hx
    simp only [Bool.and_eq_true, decide_eq_true_eq]
    exact ⟨fun he => h1 (he ▸ hx), fun he => h2 (he ▸ hx)⟩
  have e1 : loadedCols inp = inp ++ [PCol.stockNameClean, PCol.seqId] := by
    unfold loadedCols addCol
    rw [if_neg h1,
      if_neg (show PCol.seqId ∉ inp ++ [PCol.stockNameClean] by simp [h2])]
    simp
  have e2 : addCol (inp ++ [PCol.stockNameClean, PCol.seqId]) PCol.matchId =
      inp ++ [PCol.stockNameClean, PCol.seqId, PCol.matchId] := by
    unfold addCol
    rw [if_neg (show PCol.matchId ∉ inp ++ [PCol.stockNameClean, PCol.seqId] by
      simp [h3])]
    simp
  have e3 : addCol (inp ++ [PCol.stockNameClean, PCol.seqId, PCol.matchId])
      PCol.matchType =
      inp ++ [PCol.stockNameClean, PCol.seqId, PCol.matchId, PCol.matchType] := by
    unfold addCol
    rw [if_neg (show PCol.matchType ∉
      inp ++ [PCol.stockNameClean, PCol.seqId, PCol.matchId] by simp [h4])]
    simp
  unfold unmatchedCols
  rw [e1, e2, e3, List.filter_append, hfilter]
  rfl

/-- Witness for the amended C9 at the standard four-column input. -/
theorem C9_unmatched_columns_witness :
    unmatchedCols [.orig 0, .orig 1, .orig 2, .orig 3] =
      [.orig 0, .orig 1, .orig 2, .orig 3] ++ [PCol.matchId, PCol.matchType] :=
  C9_unmatched_columns [.orig 0, .orig 1, .orig 2, .orig 3]
    (by decide) (by decide) (by decide) (by decide)

end RecoBuddy
